import Mathlib

/-!
Verification of the change-classification core and surrounding control flow of
the backup CLI (`src/main.py`).

The program shells out to an external binary for all I/O; the algorithmic core
is `scan_changes` (lines 513-635 of `main.py`), which compares a remote and a
local file listing and produces a `ChangeSet`.  We embed that routine, the
command runner `run_rclone_command`, the download-URL selection
`get_rclone_download_url`, and the menu guard for the sync action, and prove
the spec's claims about them.
-/

namespace BackupCli

/-- One file's metadata as used by the classifier: the `Size` and `ModTime`
fields of an `lsjson` record.  `modified` is an opaque string compared only
for equality. -/
structure FileEntry where
  size : Int
  modified : String
deriving DecidableEq, Repr

/-- A listing dictionary (`drive_dict` / `local_dict` in `scan_changes`):
an association list from path to entry, in dict iteration order.  A Python
dict has no duplicate keys; where a proof needs that fact it takes a
`(keys L).Nodup` hypothesis. -/
abbrev Listing := List (String × FileEntry)

/-- First-match association lookup; on a duplicate-free list this is dict
lookup (`d[path]`), and `assocLookup d p = none` is `path not in d`. -/
def assocLookup {κ α : Type} [DecidableEq κ] : List (κ × α) → κ → Option α
  | [], _ => none
  | (q, e) :: rest, p => if p = q then some e else assocLookup rest p

/-- The key list of a listing. -/
def keys {κ α : Type} (d : List (κ × α)) : List κ := d.map Prod.fst

/-- Record appended to `new_files`: path in remote, absent locally. -/
structure NewEntry where
  path : String
  size : Int
  modified : String
deriving DecidableEq, Repr

/-- Record appended to `changed_files`: path in both listings with a size or
modification-time difference. -/
structure ChangedEntry where
  path : String
  old_size : Int
  new_size : Int
  size_diff : Int
  modified : String
deriving DecidableEq, Repr

/-- Record appended to `deleted_files`: path in the local listing, absent
remotely. -/
structure DeletedEntry where
  path : String
  size : Int
  modified : String
deriving DecidableEq, Repr

/-- The dictionary returned by `scan_changes` (lines 629-635). -/
structure ChangeSet where
  new_files : List NewEntry
  changed_files : List ChangedEntry
  deleted_files : List DeletedEntry
  total_new_size : Int
  total_deleted_size : Int
deriving DecidableEq, Repr

/-- The first loop of `scan_changes` (lines 593-613): walk the remote dict,
emitting new entries (and accumulating `total_new_size`) for paths absent
locally, and changed entries for paths present in both whose size or modified
time differ. -/
def scanRemote (local_dict : Listing) :
    Listing → List NewEntry × List ChangedEntry × Int
  | [] => ([], [], 0)
  | (path, drive_item) :: rest =>
    let r := scanRemote local_dict rest
    match assocLookup local_dict path with
    | none =>
      (⟨path, drive_item.size, drive_item.modified⟩ :: r.1, r.2.1,
        drive_item.size + r.2.2)
    | some local_item =>
      if drive_item.size ≠ local_item.size ∨
          drive_item.modified ≠ local_item.modified then
        (r.1,
          ⟨path, local_item.size, drive_item.size,
            drive_item.size - local_item.size, drive_item.modified⟩ :: r.2.1,
          r.2.2)
      else
        r

/-- The second loop of `scan_changes` (lines 616-624): walk the local dict,
emitting deleted entries (and accumulating `total_deleted_size`) for paths
absent remotely. -/
def scanLocal (drive_dict : Listing) :
    Listing → List DeletedEntry × Int
  | [] => ([], 0)
  | (path, local_item) :: rest =>
    let r := scanLocal drive_dict rest
    match assocLookup drive_dict path with
    | none =>
      (⟨path, local_item.size, local_item.modified⟩ :: r.1,
        local_item.size + r.2)
    | some _ => r

/-- The classification core of `scan_changes` (lines 582-635), as a function
of the two listing dictionaries. -/
def scan_changes (drive_dict local_dict : Listing) : ChangeSet :=
  let rscan := scanRemote local_dict drive_dict
  let lscan := scanLocal drive_dict local_dict
  { new_files := rscan.1
    changed_files := rscan.2.1
    deleted_files := lscan.1
    total_new_size := rscan.2.2
    total_deleted_size := lscan.2 }

/-- The paths of the `new_files` sequence. -/
def newPaths (cs : ChangeSet) : List String := cs.new_files.map NewEntry.path

/-- The paths of the `changed_files` sequence. -/
def changedPaths (cs : ChangeSet) : List String :=
  cs.changed_files.map ChangedEntry.path

/-- The paths of the `deleted_files` sequence. -/
def deletedPaths (cs : ChangeSet) : List String :=
  cs.deleted_files.map DeletedEntry.path

/-- A path both listings hold with identical `(size, modified)`: the
"unchanged" category, dropped from the output. -/
def unchangedAt (drive_dict local_dict : Listing) (p : String) : Prop :=
  ∃ e, assocLookup drive_dict p = some e ∧ assocLookup local_dict p = some e

theorem assocLookup_eq_none {κ α : Type} [DecidableEq κ]
    (d : List (κ × α)) (p : κ) : assocLookup d p = none ↔ p ∉ keys d := by
  induction d with
  | nil => simp [assocLookup, keys]
  | cons kv rest ih =>
    obtain ⟨q, e⟩ := kv
    by_cases h : p = q <;> simp [assocLookup, keys, h, ih]

theorem assocLookup_mem {κ α : Type} [DecidableEq κ]
    {d : List (κ × α)} {p : κ} {e : α}
    (h : assocLookup d p = some e) : (p, e) ∈ d := by
  induction d with
  | nil => simp [assocLookup] at h
  | cons kv rest ih =>
    obtain ⟨q, v⟩ := kv
    by_cases hq : p = q
    · simp [assocLookup, hq] at h
      simp [hq, h]
    · simp [assocLookup, hq] at h
      exact List.mem_cons_of_mem _ (ih h)

theorem mem_keys_of_mem {κ α : Type} {d : List (κ × α)} {p : κ} {e : α}
    (h : (p, e) ∈ d) : p ∈ keys d :=
  List.mem_map_of_mem Prod.fst h

theorem exists_assocLookup_eq_some {κ α : Type} [DecidableEq κ]
    (d : List (κ × α)) (p : κ) :
    (∃ e, assocLookup d p = some e) ↔ p ∈ keys d := by
  constructor
  · rintro ⟨e, he⟩
    exact mem_keys_of_mem (assocLookup_mem he)
  · intro hk
    cases h : assocLookup d p with
    | none => exact absurd hk ((assocLookup_eq_none d p).mp h)
    | some e => exact ⟨e, rfl⟩

theorem assocLookup_of_mem_nodup {κ α : Type} [DecidableEq κ]
    {d : List (κ × α)} (hd : (keys d).Nodup) {p : κ} {e : α}
    (h : (p, e) ∈ d) : assocLookup d p = some e := by
  induction d with
  | nil => simp at h
  | cons kv rest ih =>
    obtain ⟨q, v⟩ := kv
    simp only [keys, List.map_cons, List.nodup_cons] at hd
    rcases List.mem_cons.mp h with heq | hmem
    · injection heq with hp he
      subst hp; subst he
      simp [assocLookup]
    · by_cases hq : p = q
      · exact absurd (hq ▸ mem_keys_of_mem hmem) hd.1
      · simpa [assocLookup, hq] using ih hd.2 hmem

theorem mem_scanRemote_new_iff (L R : Listing) (n : NewEntry) :
    n ∈ (scanRemote L R).1 ↔
      ∃ d : FileEntry, (n.path, d) ∈ R ∧ assocLookup L n.path = none ∧
        n.size = d.size ∧ n.modified = d.modified := by
  obtain ⟨np, ns, nm⟩ := n
  induction R with
  | nil => simp [scanRemote]
  | cons pe rest ih =>
    obtain ⟨path, item⟩ := pe
    cases h : assocLookup L path with
    | none =>
      simp only [scanRemote, h, List.mem_cons, ih]
      constructor
      · rintro (heq | ⟨d, hd, hl, hs, hm⟩)
        · injection heq with hp hs hm
          exact ⟨item, Or.inl (by rw [hp]), by rw [hp]; exact h, hs, hm⟩
        · exact ⟨d, Or.inr hd, hl, hs, hm⟩
      · rintro ⟨d, hmem, hl, hs, hm⟩
        rcases hmem with heq | hd
        · injection heq with hp hde
          subst hde
          exact Or.inl (by rw [hp, hs, hm])
        · exact Or.inr ⟨d, hd, hl, hs, hm⟩
    | some l =>
      have hsame : (scanRemote L ((path, item) :: rest)).1 =
          (scanRemote L rest).1 := by
        simp only [scanRemote, h]
        by_cases hc : item.size ≠ l.size ∨ item.modified ≠ l.modified <;>
          simp [hc]
      rw [hsame, ih]
      constructor
      · rintro ⟨d, hd, hl, hs, hm⟩
        exact ⟨d, List.mem_cons_of_mem _ hd, hl, hs, hm⟩
      · rintro ⟨d, hmem, hl, hs, hm⟩
        rcases List.mem_cons.mp hmem with heq | hd
        · injection heq with hp hde
          rw [hp, h] at hl
          exact Option.noConfusion hl
        · exact ⟨d, hd, hl, hs, hm⟩

theorem mem_scanRemote_changed_iff (L R : Listing) (c : ChangedEntry) :
    c ∈ (scanRemote L R).2.1 ↔
      ∃ d l : FileEntry, (c.path, d) ∈ R ∧ assocLookup L c.path = some l ∧
        (d.size ≠ l.size ∨ d.modified ≠ l.modified) ∧
        c.old_size = l.size ∧ c.new_size = d.size ∧
        c.size_diff = d.size - l.size ∧ c.modified = d.modified := by
  obtain ⟨cp, cold, cnew, cdiff, cmod⟩ := c
  induction R with
  | nil => simp [scanRemote]
  | cons pe rest ih =>
    obtain ⟨path, item⟩ := pe
    cases h : assocLookup L path with
    | none =>
      have hsame : (scanRemote L ((path, item) :: rest)).2.1 =
          (scanRemote L rest).2.1 := by
        simp [scanRemote, h]
      rw [hsame, ih]
      constructor
      · rintro ⟨d, l, hd, hl, hc, h1, h2, h3, h4⟩
        exact ⟨d, l, List.mem_cons_of_mem _ hd, hl, hc, h1, h2, h3, h4⟩
      · rintro ⟨d, l, hmem, hl, hc, h1, h2, h3, h4⟩
        rcases List.mem_cons.mp hmem with heq | hd
        · injection heq with hp hde
          rw [hp, h] at hl
          exact Option.noConfusion hl
        · exact ⟨d, l, hd, hl, hc, h1, h2, h3, h4⟩
    | some l =>
      by_cases hc : item.size ≠ l.size ∨ item.modified ≠ l.modified
      · have heqn : (scanRemote L ((path, item) :: rest)).2.1 =
            ⟨path, l.size, item.size, item.size - l.size, item.modified⟩ ::
              (scanRemote L rest).2.1 := by
          simp [scanRemote, h, hc]
        rw [heqn]
        simp only [List.mem_cons, ih]
        constructor
        · rintro (heq | ⟨d, l', hd, hl, hcond, h1, h2, h3, h4⟩)
          · injection heq with e1 e2 e3 e4 e5
            subst e1; subst e2; subst e3; subst e4; subst e5
            exact ⟨item, l, Or.inl rfl, h, hc, rfl, rfl, rfl, rfl⟩
          · exact ⟨d, l', Or.inr hd, hl, hcond, h1, h2, h3, h4⟩
        · rintro ⟨d, l', hmem, hl, hcond, h1, h2, h3, h4⟩
          rcases hmem with heq | hd
          · injection heq with hp hde
            subst hde
            rw [hp, h] at hl
            injection hl with hle
            subst hle
            exact Or.inl (by rw [hp, h1, h2, h3, h4])
          · exact Or.inr ⟨d, l', hd, hl, hcond, h1, h2, h3, h4⟩
      · have hsame : (scanRemote L ((path, item) :: rest)).2.1 =
            (scanRemote L rest).2.1 := by
          simp [scanRemote, h, hc]
        rw [hsame, ih]
        constructor
        · rintro ⟨d, l', hd, hl, hcond, h1, h2, h3, h4⟩
          exact ⟨d, l', List.mem_cons_of_mem _ hd, hl, hcond, h1, h2, h3, h4⟩
        · rintro ⟨d, l', hmem, hl, hcond, h1, h2, h3, h4⟩
          rcases List.mem_cons.mp hmem with heq | hd
          · injection heq with hp hde
            subst hde
            rw [hp, h] at hl
            injection hl with hle
            subst hle
            exact absurd hcond hc
          · exact ⟨d, l', hd, hl, hcond, h1, h2, h3, h4⟩

theorem mem_scanLocal_deleted_iff (R L : Listing) (e : DeletedEntry) :
    e ∈ (scanLocal R L).1 ↔
      ∃ l : FileEntry, (e.path, l) ∈ L ∧ assocLookup R e.path = none ∧
        e.size = l.size ∧ e.modified = l.modified := by
  obtain ⟨ep, es, em⟩ := e
  induction L with
  | nil => simp [scanLocal]
  | cons pe rest ih =>
    obtain ⟨path, item⟩ := pe
    cases h : assocLookup R path with
    | none =>
      simp only [scanLocal, h, List.mem_cons, ih]
      constructor
      · rintro (heq | ⟨l, hl, hr, hs, hm⟩)
        · injection heq with hp hs hm
          exact ⟨item, Or.inl (by rw [hp]), by rw [hp]; exact h, hs, hm⟩
        · exact ⟨l, Or.inr hl, hr, hs, hm⟩
      · rintro ⟨l, hmem, hr, hs, hm⟩
        rcases hmem with heq | hl
        · injection heq with hp hle
          subst hle
          exact Or.inl (by rw [hp, hs, hm])
        · exact Or.inr ⟨l, hl, hr, hs, hm⟩
    | some d =>
      have hsame : (scanLocal R ((path, item) :: rest)).1 =
          (scanLocal R rest).1 := by
        simp [scanLocal, h]
      rw [hsame, ih]
      constructor
      · rintro ⟨l, hl, hr, hs, hm⟩
        exact ⟨l, List.mem_cons_of_mem _ hl, hr, hs, hm⟩
      · rintro ⟨l, hmem, hr, hs, hm⟩
        rcases List.mem_cons.mp hmem with heq | hl
        · injection heq with hp hle
          rw [hp, h] at hr
          exact Option.noConfusion hr
        · exact ⟨l, hl, hr, hs, hm⟩

theorem scanRemote_newPaths_sublist (L R : Listing) :
    List.Sublist ((scanRemote L R).1.map NewEntry.path) (keys R) := by
  induction R with
  | nil => simp [scanRemote, keys]
  | cons pe rest ih =>
    obtain ⟨path, item⟩ := pe
    cases h : assocLookup L path with
    | none =>
      simpa [scanRemote, h, keys] using List.Sublist.cons₂ path ih
    | some l =>
      have hsame : (scanRemote L ((path, item) :: rest)).1 =
          (scanRemote L rest).1 := by
        simp only [scanRemote, h]
        by_cases hc : item.size ≠ l.size ∨ item.modified ≠ l.modified <;>
          simp [hc]
      rw [hsame]
      simpa [keys] using List.Sublist.cons path ih

theorem scanRemote_changedPaths_sublist (L R : Listing) :
    List.Sublist ((scanRemote L R).2.1.map ChangedEntry.path) (keys R) := by
  induction R with
  | nil => simp [scanRemote, keys]
  | cons pe rest ih =>
    obtain ⟨path, item⟩ := pe
    cases h : assocLookup L path with
    | none =>
      have hsame : (scanRemote L ((path, item) :: rest)).2.1 =
          (scanRemote L rest).2.1 := by
        simp [scanRemote, h]
      rw [hsame]
      simpa [keys] using List.Sublist.cons path ih
    | some l =>
      by_cases hc : item.size ≠ l.size ∨ item.modified ≠ l.modified
      · have heqn : (scanRemote L ((path, item) :: rest)).2.1 =
            ⟨path, l.size, item.size, item.size - l.size, item.modified⟩ ::
              (scanRemote L rest).2.1 := by
          simp [scanRemote, h, hc]
        rw [heqn]
        simpa [keys] using List.Sublist.cons₂ path ih
      · have hsame : (scanRemote L ((path, item) :: rest)).2.1 =
            (scanRemote L rest).2.1 := by
          simp [scanRemote, h, hc]
        rw [hsame]
        simpa [keys] using List.Sublist.cons path ih

theorem scanLocal_deletedPaths_sublist (R L : Listing) :
    List.Sublist ((scanLocal R L).1.map DeletedEntry.path) (keys L) := by
  induction L with
  | nil => simp [scanLocal, keys]
  | cons pe rest ih =>
    obtain ⟨path, item⟩ := pe
    cases h : assocLookup R path with
    | none =>
      simpa [scanLocal, h, keys] using List.Sublist.cons₂ path ih
    | some d =>
      have hsame : (scanLocal R ((path, item) :: rest)).1 =
          (scanLocal R rest).1 := by
        simp [scanLocal, h]
      rw [hsame]
      simpa [keys] using List.Sublist.cons path ih

theorem scanRemote_total (L R : Listing) :
    (scanRemote L R).2.2 = ((scanRemote L R).1.map NewEntry.size).sum := by
  induction R with
  | nil => simp [scanRemote]
  | cons pe rest ih =>
    obtain ⟨path, item⟩ := pe
    cases h : assocLookup L path with
    | none => simp [scanRemote, h, ih]
    | some l =>
      by_cases hc : item.size ≠ l.size ∨ item.modified ≠ l.modified <;>
        simp [scanRemote, h, hc, ih]

theorem scanLocal_total (R L : Listing) :
    (scanLocal R L).2 = ((scanLocal R L).1.map DeletedEntry.size).sum := by
  induction L with
  | nil => simp [scanLocal]
  | cons pe rest ih =>
    obtain ⟨path, item⟩ := pe
    cases h : assocLookup R path with
    | none => simp [scanLocal, h, ih]
    | some d => simp [scanLocal, h, ih]

theorem mem_keys_iff {κ α : Type} (d : List (κ × α)) (p : κ) :
    p ∈ keys d ↔ ∃ e, (p, e) ∈ d := by
  constructor
  · intro h
    obtain ⟨⟨q, e⟩, hm, hq⟩ := List.mem_map.mp h
    exact ⟨e, by rwa [← hq]⟩
  · rintro ⟨e, he⟩
    exact mem_keys_of_mem he

theorem mem_newPaths_iff (R L : Listing) (p : String) :
    p ∈ newPaths (scan_changes R L) ↔
      p ∈ keys R ∧ assocLookup L p = none := by
  simp only [newPaths, scan_changes, List.mem_map]
  constructor
  · rintro ⟨n, hn, rfl⟩
    obtain ⟨d, hd, hl, _, _⟩ := (mem_scanRemote_new_iff L R n).mp hn
    exact ⟨mem_keys_of_mem hd, hl⟩
  · rintro ⟨hk, hl⟩
    obtain ⟨d, hd⟩ := (mem_keys_iff R p).mp hk
    exact ⟨⟨p, d.size, d.modified⟩,
      (mem_scanRemote_new_iff L R _).mpr ⟨d, hd, hl, rfl, rfl⟩, rfl⟩

theorem mem_changedPaths_iff (R L : Listing) (p : String) :
    p ∈ changedPaths (scan_changes R L) ↔
      ∃ d l : FileEntry, (p, d) ∈ R ∧ assocLookup L p = some l ∧
        (d.size ≠ l.size ∨ d.modified ≠ l.modified) := by
  simp only [changedPaths, scan_changes, List.mem_map]
  constructor
  · rintro ⟨c, hc, rfl⟩
    obtain ⟨d, l, hd, hl, hcond, _⟩ := (mem_scanRemote_changed_iff L R c).mp hc
    exact ⟨d, l, hd, hl, hcond⟩
  · rintro ⟨d, l, hd, hl, hcond⟩
    exact ⟨⟨p, l.size, d.size, d.size - l.size, d.modified⟩,
      (mem_scanRemote_changed_iff L R _).mpr
        ⟨d, l, hd, hl, hcond, rfl, rfl, rfl, rfl⟩, rfl⟩

theorem mem_deletedPaths_iff (R L : Listing) (p : String) :
    p ∈ deletedPaths (scan_changes R L) ↔
      p ∈ keys L ∧ assocLookup R p = none := by
  simp only [deletedPaths, scan_changes, List.mem_map]
  constructor
  · rintro ⟨e, he, rfl⟩
    obtain ⟨l, hl, hr, _, _⟩ := (mem_scanLocal_deleted_iff R L e).mp he
    exact ⟨mem_keys_of_mem hl, hr⟩
  · rintro ⟨hk, hr⟩
    obtain ⟨l, hl⟩ := (mem_keys_iff L p).mp hk
    exact ⟨⟨p, l.size, l.modified⟩,
      (mem_scanLocal_deleted_iff R L _).mpr ⟨l, hl, hr, rfl, rfl⟩, rfl⟩

/-- Sample listings used to instantiate the universally quantified theorems
at concrete inputs. -/
def sampleRemote : Listing := [("a.txt", ⟨10, "T1"⟩), ("b.txt", ⟨20, "T2"⟩)]

/-- A concrete local listing sharing one path with `sampleRemote`. -/
def sampleLocal : Listing := [("b.txt", ⟨5, "T1"⟩), ("c.txt", ⟨7, "T3"⟩)]

/-- C1: for every pair of listings the classifier's three output categories
are pairwise disjoint and exactly cover the key sets: every path of the
remote listing is exactly one of new, changed, or unchanged (unchanged paths
are dropped), every path of the local listing is deleted or present in both,
and no path appears twice in or across the output categories. -/
theorem scan_changes_partition_exact (R L : Listing)
    (hR : (keys R).Nodup) (hL : (keys L).Nodup) :
    (∀ p, p ∈ newPaths (scan_changes R L) ↔ p ∈ keys R ∧ p ∉ keys L) ∧
    (∀ p, p ∈ changedPaths (scan_changes R L) → p ∈ keys R ∧ p ∈ keys L) ∧
    (∀ p, p ∈ deletedPaths (scan_changes R L) ↔ p ∈ keys L ∧ p ∉ keys R) ∧
    (∀ p, p ∈ keys R → p ∈ newPaths (scan_changes R L) ∨
      p ∈ changedPaths (scan_changes R L) ∨ unchangedAt R L p) ∧
    (∀ p, p ∈ keys L → p ∈ deletedPaths (scan_changes R L) ∨ p ∈ keys R) ∧
    (∀ p, unchangedAt R L p → p ∉ newPaths (scan_changes R L) ∧
      p ∉ changedPaths (scan_changes R L) ∧
      p ∉ deletedPaths (scan_changes R L)) ∧
    (∀ p, ¬(p ∈ newPaths (scan_changes R L) ∧
      p ∈ changedPaths (scan_changes R L))) ∧
    (∀ p, ¬(p ∈ newPaths (scan_changes R L) ∧
      p ∈ deletedPaths (scan_changes R L))) ∧
    (∀ p, ¬(p ∈ changedPaths (scan_changes R L) ∧
      p ∈ deletedPaths (scan_changes R L))) ∧
    (newPaths (scan_changes R L)).Nodup ∧
    (changedPaths (scan_changes R L)).Nodup ∧
    (deletedPaths (scan_changes R L)).Nodup := by
  refine ⟨?_, ?_, ?_, ?_, ?_, ?_, ?_, ?_, ?_, ?_, ?_, ?_⟩
  · intro p
    rw [mem_newPaths_iff, assocLookup_eq_none]
  · intro p h
    obtain ⟨d, l, hd, hl, _⟩ := (mem_changedPaths_iff R L p).mp h
    exact ⟨mem_keys_of_mem hd, mem_keys_of_mem (assocLookup_mem hl)⟩
  · intro p
    rw [mem_deletedPaths_iff, assocLookup_eq_none]
  · intro p hk
    obtain ⟨r, hr⟩ := (exists_assocLookup_eq_some R p).mpr hk
    cases hl : assocLookup L p with
    | none => exact Or.inl ((mem_newPaths_iff R L p).mpr ⟨hk, hl⟩)
    | some l =>
      by_cases hc : r.size ≠ l.size ∨ r.modified ≠ l.modified
      · exact Or.inr (Or.inl ((mem_changedPaths_iff R L p).mpr
          ⟨r, l, assocLookup_mem hr, hl, hc⟩))
      · push_neg at hc
        have hrl : r = l := by
          cases r; cases l
          simp only [FileEntry.mk.injEq]
          exact ⟨hc.1, hc.2⟩
        exact Or.inr (Or.inr ⟨r, hr, hrl ▸ hl⟩)
  · intro p hk
    cases hr : assocLookup R p with
    | none => exact Or.inl ((mem_deletedPaths_iff R L p).mpr ⟨hk, hr⟩)
    | some r => exact Or.inr (mem_keys_of_mem (assocLookup_mem hr))
  · rintro p ⟨e, hre, hle⟩
    refine ⟨?_, ?_, ?_⟩
    · intro h
      obtain ⟨_, hl⟩ := (mem_newPaths_iff R L p).mp h
      rw [hl] at hle
      exact Option.noConfusion hle
    · intro h
      obtain ⟨d, l, hd, hl, hc⟩ := (mem_changedPaths_iff R L p).mp h
      rw [hle] at hl
      injection hl with hl
      have hde : d = e := by
        have h2 := assocLookup_of_mem_nodup hR hd
        rw [hre] at h2
        injection h2 with h2
        exact h2.symm
      subst hde; subst hl
      rcases hc with h | h <;> exact h rfl
    · intro h
      obtain ⟨_, hr⟩ := (mem_deletedPaths_iff R L p).mp h
      rw [hr] at hre
      exact Option.noConfusion hre
  · rintro p ⟨hn, hc⟩
    obtain ⟨_, hl⟩ := (mem_newPaths_iff R L p).mp hn
    obtain ⟨d, l, _, hl', _⟩ := (mem_changedPaths_iff R L p).mp hc
    rw [hl] at hl'
    exact Option.noConfusion hl'
  · rintro p ⟨hn, hd⟩
    obtain ⟨hk, _⟩ := (mem_newPaths_iff R L p).mp hn
    obtain ⟨_, hr⟩ := (mem_deletedPaths_iff R L p).mp hd
    exact absurd hk ((assocLookup_eq_none R p).mp hr)
  · rintro p ⟨hc, hd⟩
    obtain ⟨d, l, hdm, _, _⟩ := (mem_changedPaths_iff R L p).mp hc
    obtain ⟨_, hr⟩ := (mem_deletedPaths_iff R L p).mp hd
    exact absurd (mem_keys_of_mem hdm) ((assocLookup_eq_none R p).mp hr)
  · have : newPaths (scan_changes R L) =
        (scanRemote L R).1.map NewEntry.path := rfl
    rw [this]
    exact List.Nodup.sublist (scanRemote_newPaths_sublist L R) hR
  · have : changedPaths (scan_changes R L) =
        (scanRemote L R).2.1.map ChangedEntry.path := rfl
    rw [this]
    exact List.Nodup.sublist (scanRemote_changedPaths_sublist L R) hR
  · have : deletedPaths (scan_changes R L) =
        (scanLocal R L).1.map DeletedEntry.path := rfl
    rw [this]
    exact List.Nodup.sublist (scanLocal_deletedPaths_sublist R L) hL

/-- Witness for C1: the partition theorem instantiated at concrete listings
sharing the path `b.txt`. -/
theorem scan_changes_partition_exact_witness :
    ("a.txt" ∈ newPaths (scan_changes sampleRemote sampleLocal) ↔
      "a.txt" ∈ keys sampleRemote ∧ "a.txt" ∉ keys sampleLocal) ∧
    ¬("b.txt" ∈ newPaths (scan_changes sampleRemote sampleLocal) ∧
      "b.txt" ∈ changedPaths (scan_changes sampleRemote sampleLocal)) :=
  ⟨(scan_changes_partition_exact sampleRemote sampleLocal
      (by decide) (by decide)).1 "a.txt",
    (scan_changes_partition_exact sampleRemote sampleLocal
      (by decide) (by decide)).2.2.2.2.2.2.1 "b.txt"⟩

/-- C2: the `ChangeSet` totals equal the sums of the `size` fields over the
`new_files` and `deleted_files` sequences, for every pair of listings. -/
theorem scan_changes_totals (R L : Listing) :
    (scan_changes R L).total_new_size =
      ((scan_changes R L).new_files.map NewEntry.size).sum ∧
    (scan_changes R L).total_deleted_size =
      ((scan_changes R L).deleted_files.map DeletedEntry.size).sum := by
  constructor
  · simpa [scan_changes] using scanRemote_total L R
  · simpa [scan_changes] using scanLocal_total R L

/-- C3: a path present in both listings is recorded as changed exactly when
the remote and local entries differ in size or modified timestamp; the
recorded entry carries `old_size = l.size`, `new_size = r.size`,
`size_diff = new_size - old_size` and the remote `modified`; and a path
present in both with identical `(size, modified)` appears in no output
category. -/
theorem scan_changes_changed_spec (R L : Listing) (hR : (keys R).Nodup)
    (p : String) (r l : FileEntry)
    (hr : assocLookup R p = some r) (hl : assocLookup L p = some l) :
    ((r.size ≠ l.size ∨ r.modified ≠ l.modified) ↔
      p ∈ changedPaths (scan_changes R L)) ∧
    (∀ c ∈ (scan_changes R L).changed_files, c.path = p →
      c.old_size = l.size ∧ c.new_size = r.size ∧
      c.size_diff = r.size - l.size ∧ c.modified = r.modified) ∧
    (r.size = l.size ∧ r.modified = l.modified →
      p ∉ newPaths (scan_changes R L) ∧
      p ∉ changedPaths (scan_changes R L) ∧
      p ∉ deletedPaths (scan_changes R L)) := by
  refine ⟨?_, ?_, ?_⟩
  · constructor
    · intro hc
      exact (mem_changedPaths_iff R L p).mpr ⟨r, l, assocLookup_mem hr, hl, hc⟩
    · intro h
      obtain ⟨d, l', hd, hl', hc⟩ := (mem_changedPaths_iff R L p).mp h
      have hdr : d = r := by
        have h2 := assocLookup_of_mem_nodup hR hd
        rw [hr] at h2
        injection h2 with h2
        exact h2.symm
      have hll : l' = l := by
        rw [hl] at hl'
        injection hl' with h2
        exact h2.symm
      rw [hdr, hll] at hc
      exact hc
  · intro c hc hcp
    have hc' : c ∈ (scanRemote L R).2.1 := hc
    obtain ⟨d, l', hd, hl', _, h1, h2, h3, h4⟩ :=
      (mem_scanRemote_changed_iff L R c).mp hc'
    rw [hcp] at hd hl'
    have hdr : d = r := by
      have h5 := assocLookup_of_mem_nodup hR hd
      rw [hr] at h5
      injection h5 with h5
      exact h5.symm
    have hll : l' = l := by
      rw [hl] at hl'
      injection hl' with h5
      exact h5.symm
    subst hdr; subst hll
    exact ⟨h1, h2, h3, h4⟩
  · rintro ⟨hs, hm⟩
    have hrl : r = l := by
      cases r; cases l
      simp only [FileEntry.mk.injEq]
      exact ⟨hs, hm⟩
    refine ⟨?_, ?_, ?_⟩
    · intro h
      obtain ⟨_, hn⟩ := (mem_newPaths_iff R L p).mp h
      rw [hn] at hl
      exact Option.noConfusion hl
    · intro h
      obtain ⟨d, l', hd, hl', hc⟩ := (mem_changedPaths_iff R L p).mp h
      have hdr : d = r := by
        have h5 := assocLookup_of_mem_nodup hR hd
        rw [hr] at h5
        injection h5 with h5
        exact h5.symm
      have hll : l' = l := by
        rw [hl] at hl'
        injection hl' with h5
        exact h5.symm
      rw [hdr, hll, hrl] at hc
      rcases hc with h5 | h5 <;> exact h5 rfl
    · intro h
      obtain ⟨_, hrn⟩ := (mem_deletedPaths_iff R L p).mp h
      rw [hrn] at hr
      exact Option.noConfusion hr

/-- Witness for C3: instantiated at the path `b.txt`, which `sampleRemote`
holds with size 20 and `sampleLocal` with size 5. -/
theorem scan_changes_changed_spec_witness :
    (((20 : Int) ≠ 5 ∨ "T2" ≠ "T1") ↔
      "b.txt" ∈ changedPaths (scan_changes sampleRemote sampleLocal)) ∧
    (∀ c ∈ (scan_changes sampleRemote sampleLocal).changed_files,
      c.path = "b.txt" →
      c.old_size = 5 ∧ c.new_size = 20 ∧
      c.size_diff = 20 - 5 ∧ c.modified = "T2") :=
  ⟨(scan_changes_changed_spec sampleRemote sampleLocal (by decide)
      "b.txt" ⟨20, "T2"⟩ ⟨5, "T1"⟩ (by decide) (by decide)).1,
    (scan_changes_changed_spec sampleRemote sampleLocal (by decide)
      "b.txt" ⟨20, "T2"⟩ ⟨5, "T1"⟩ (by decide) (by decide)).2.1⟩

/-- C4: classifying a listing against itself yields an entirely empty
`ChangeSet` with zero totals. -/
theorem scan_changes_self (R : Listing) (hR : (keys R).Nodup) :
    scan_changes R R = ⟨[], [], [], 0, 0⟩ := by
  have hnew : (scanRemote R R).1 = [] := by
    rw [List.eq_nil_iff_forall_not_mem]
    intro n hn
    obtain ⟨d, hd, hl, _, _⟩ := (mem_scanRemote_new_iff R R n).mp hn
    rw [assocLookup_eq_none] at hl
    exact hl (mem_keys_of_mem hd)
  have hch : (scanRemote R R).2.1 = [] := by
    rw [List.eq_nil_iff_forall_not_mem]
    intro c hc
    obtain ⟨d, l, hd, hl, hcond, _⟩ := (mem_scanRemote_changed_iff R R c).mp hc
    have h2 := assocLookup_of_mem_nodup hR hd
    rw [h2] at hl
    injection hl with hdl
    rw [← hdl] at hcond
    rcases hcond with h | h <;> exact h rfl
  have hdel : (scanLocal R R).1 = [] := by
    rw [List.eq_nil_iff_forall_not_mem]
    intro e he
    obtain ⟨l, hl, hr, _, _⟩ := (mem_scanLocal_deleted_iff R R e).mp he
    rw [assocLookup_eq_none] at hr
    exact hr (mem_keys_of_mem hl)
  have ht1 : (scanRemote R R).2.2 = 0 := by
    rw [scanRemote_total, hnew]
    rfl
  have ht2 : (scanLocal R R).2 = 0 := by
    rw [scanLocal_total, hdel]
    rfl
  simp [scan_changes, hnew, hch, hdel, ht1, ht2]

/-- Witness for C4: the self-scan of a concrete two-entry listing is empty. -/
theorem scan_changes_self_witness :
    scan_changes sampleRemote sampleRemote = ⟨[], [], [], 0, 0⟩ :=
  scan_changes_self sampleRemote (by decide)

/-- The outcome of one captured subprocess invocation in the model: its exit
code and its parsed stdout (the `lsjson` JSON array, as an ordered list of
`(Path, entry)` records). -/
structure ProcResult where
  returncode : Int
  stdout : List (String × FileEntry)
deriving DecidableEq, Repr

/-- Abstracted behavior of one subprocess: either it would complete after
`duration` seconds with the given result, or spawning fails
(`FileNotFoundError` or another exception caught by `run_rclone_command`,
including an unresolvable rclone path). -/
inductive ProcBehavior where
  | completes (duration : Nat) (result : ProcResult)
  | spawnFailure
deriving DecidableEq, Repr

/-- The hard-coded captured-mode timeout of `run_rclone_command`
(`timeout=300`, line 392). -/
def DEFAULT_TIMEOUT : Nat := 300

/-- `run_rclone_command` (lines 356-403): in streamed mode
(`show_output=True`) the subprocess runs with no timeout; in captured mode a
`subprocess.TimeoutExpired` past 300 seconds, like any spawn failure, is
caught and turned into `None`. -/
def run_rclone_command (b : ProcBehavior) (show_output : Bool) :
    Option ProcResult :=
  if show_output then
    match b with
    | .completes _ r => some r
    | .spawnFailure => none
  else
    match b with
    | .completes dur r => if dur > DEFAULT_TIMEOUT then none else some r
    | .spawnFailure => none

/-- The persisted configuration fields a scan reads (`source`,
`destination`). -/
structure Config where
  source : String
  destination : String
deriving DecidableEq, Repr

/-- The environment of one scan: the behaviors of the two `lsjson`
subprocesses and whether `os.path.exists(dest)` holds. -/
structure ScanEnv where
  remoteList : ProcBehavior
  destExists : Bool
  localList : ProcBehavior
deriving DecidableEq, Repr

/-- Python dict insertion `d[k] = v`: overwrite in place, append when the key
is fresh. -/
def dictInsert {κ α : Type} [DecidableEq κ] :
    List (κ × α) → κ → α → List (κ × α)
  | [], k, v => [(k, v)]
  | (q, w) :: rest, k, v =>
    if k = q then (q, v) :: rest else (q, w) :: dictInsert rest k v

/-- The dict comprehension `{item['Path']: item for item in files}`
(lines 582-583): last write wins, first-insertion order. -/
def buildDict (items : List (String × FileEntry)) : Listing :=
  items.foldl (fun d kv => dictInsert d kv.1 kv.2) []

/-- Step 2 of `scan_changes` (lines 560-573): the local file list is the
parsed output of `lsjson <dest>` when the destination exists and the command
yields exit code 0, and the empty list otherwise. -/
def local_files_of (env : ScanEnv) : List (String × FileEntry) :=
  if env.destExists then
    match run_rclone_command env.localList false with
    | some result => if result.returncode = 0 then result.stdout else []
    | none => []
  else []

/-- `scan_changes` as the orchestrating procedure (lines 513-635): refuse an
empty destination, fetch the remote listing (abort on failure or nonzero
exit), fetch the local listing (falling back to empty), build the two dicts
and classify. -/
def scan_changes_full (cfg : Config) (env : ScanEnv) : Option ChangeSet :=
  if cfg.destination = "" then none
  else
    match run_rclone_command env.remoteList false with
    | none => none
    | some result =>
      if result.returncode ≠ 0 then none
      else some (scan_changes (buildDict result.stdout)
        (buildDict (local_files_of env)))

/-- The argument vectors a scan passes to `run_rclone_command`, in order
(lines 541-546 and 561-566). -/
def scan_commands (cfg : Config) (env : ScanEnv) : List (List String) :=
  if cfg.destination = "" then []
  else
    match run_rclone_command env.remoteList false with
    | none => [["lsjson", cfg.source, "--recursive", "--files-only"]]
    | some result =>
      if result.returncode ≠ 0 then
        [["lsjson", cfg.source, "--recursive", "--files-only"]]
      else if env.destExists then
        [["lsjson", cfg.source, "--recursive", "--files-only"],
          ["lsjson", cfg.destination, "--recursive", "--files-only"]]
      else [["lsjson", cfg.source, "--recursive", "--files-only"]]

/-- The argument vector `apply_changes` passes to `run_rclone_command`
(lines 830-842): the only invocation that mutates the destination. -/
def sync_command (cfg : Config) (log_file : String) : List String :=
  ["sync", cfg.source, cfg.destination, "--progress", "--checksum",
    "--track-renames", "--delete-after", "--log-file", log_file,
    "--log-level", "INFO", "--stats", "1s", "--stats-one-line"]

/-- Outcome of menu option 4, "Apply Changes (Sync)" (lines 947-961). -/
inductive SyncOutcome where
  | refusedUnconfigured
  | scanFailed
  | nothingToSync
  | cancelled
  | synced
deriving DecidableEq, Repr

/-- Menu option 4 (lines 947-961): refuse when no destination is configured;
otherwise re-run a scan; when the scan produced a change set, sync only if it
is nonempty (`display_changes` returns `False` when all three counts are
zero) and the user confirms `apply_changes`'s prompt. -/
def main_menu_choice4 (cfg : Config) (env : ScanEnv) (confirmSync : Bool) :
    SyncOutcome :=
  if cfg.destination = "" then .refusedUnconfigured
  else
    match scan_changes_full cfg env with
    | none => .scanFailed
    | some changes =>
      if changes.new_files.length + changes.changed_files.length +
          changes.deleted_files.length = 0 then .nothingToSync
      else if confirmSync then .synced else .cancelled

/-- C6: a captured-mode subprocess exceeding the 300-second default timeout
makes the runner return `None` — no partial result — and a scan whose remote
listing call times out yields no `ChangeSet`, so no incomplete output is ever
parsed. -/
theorem captured_timeout_returns_none (dur : Nat) (r : ProcResult)
    (h : dur > DEFAULT_TIMEOUT) :
    DEFAULT_TIMEOUT = 300 ∧
    run_rclone_command (.completes dur r) false = none ∧
    ∀ cfg env, env.remoteList = .completes dur r →
      scan_changes_full cfg env = none := by
  refine ⟨rfl, ?_, ?_⟩
  · simp [run_rclone_command, h]
  · intro cfg env he
    by_cases hd : cfg.destination = "" <;>
      simp [scan_changes_full, he, run_rclone_command, h, hd]

/-- Witness for C6: a 301-second listing subprocess produces no result and no
change set. -/
theorem captured_timeout_returns_none_witness :
    run_rclone_command (.completes 301 ⟨0, []⟩) false = none ∧
    scan_changes_full ⟨"gdrive:", "/backup"⟩
      ⟨.completes 301 ⟨0, []⟩, false, .spawnFailure⟩ = none :=
  ⟨(captured_timeout_returns_none 301 ⟨0, []⟩ (by decide)).2.1,
    (captured_timeout_returns_none 301 ⟨0, []⟩ (by decide)).2.2 _ _ rfl⟩

/-- C8: with an empty destination the scan refuses to run (it reports an
error and returns no `ChangeSet`) and menu option 4 refuses the sync. -/
theorem empty_destination_refused (cfg : Config) (env : ScanEnv)
    (h : cfg.destination = "") :
    scan_changes_full cfg env = none ∧
    ∀ confirm, main_menu_choice4 cfg env confirm = .refusedUnconfigured := by
  constructor
  · simp [scan_changes_full, h]
  · intro confirm
    simp [main_menu_choice4, h]

/-- Witness for C8: the unconfigured state refuses both scan and sync. -/
theorem empty_destination_refused_witness :
    scan_changes_full ⟨"gdrive:", ""⟩
      ⟨.completes 1 ⟨0, []⟩, true, .completes 1 ⟨0, []⟩⟩ = none ∧
    main_menu_choice4 ⟨"gdrive:", ""⟩
      ⟨.completes 1 ⟨0, []⟩, true, .completes 1 ⟨0, []⟩⟩ true =
        .refusedUnconfigured :=
  ⟨(empty_destination_refused ⟨"gdrive:", ""⟩
      ⟨.completes 1 ⟨0, []⟩, true, .completes 1 ⟨0, []⟩⟩ rfl).1,
    (empty_destination_refused ⟨"gdrive:", ""⟩
      ⟨.completes 1 ⟨0, []⟩, true, .completes 1 ⟨0, []⟩⟩ rfl).2 true⟩

theorem scan_commands_cases (cfg : Config) (env : ScanEnv) :
    scan_commands cfg env = [] ∨
    scan_commands cfg env =
      [["lsjson", cfg.source, "--recursive", "--files-only"]] ∨
    scan_commands cfg env =
      [["lsjson", cfg.source, "--recursive", "--files-only"],
        ["lsjson", cfg.destination, "--recursive", "--files-only"]] := by
  unfold scan_commands
  split
  · exact Or.inl rfl
  · split
    · exact Or.inr (Or.inl rfl)
    · split
      · exact Or.inr (Or.inl rfl)
      · split
        · exact Or.inr (Or.inr rfl)
        · exact Or.inr (Or.inl rfl)

/-- C9: a scan only issues `lsjson` invocations — the mutating `sync`
invocation, built only by `apply_changes`, never appears in a scan's command
trace — and any `ChangeSet` a scan returns is the pure classification
function applied to two listings. -/
theorem scan_never_mutates (cfg : Config) (env : ScanEnv) :
    (∀ c ∈ scan_commands cfg env, c.head? = some "lsjson") ∧
    (∀ lf, (sync_command cfg lf).head? = some "sync") ∧
    (∀ lf, sync_command cfg lf ∉ scan_commands cfg env) ∧
    (∀ cs, scan_changes_full cfg env = some cs →
      ∃ Rd Ld, cs = scan_changes Rd Ld) := by
  have hcmds : ∀ c ∈ scan_commands cfg env, c.head? = some "lsjson" := by
    intro c hc
    rcases scan_commands_cases cfg env with h | h | h <;> rw [h] at hc
    · exact absurd hc (List.not_mem_nil c)
    · rcases List.mem_cons.mp hc with rfl | h2
      · rfl
      · exact absurd h2 (List.not_mem_nil c)
    · rcases List.mem_cons.mp hc with rfl | h2
      · rfl
      · rcases List.mem_cons.mp h2 with rfl | h3
        · rfl
        · exact absurd h3 (List.not_mem_nil c)
  refine ⟨hcmds, fun lf => rfl, ?_, ?_⟩
  · intro lf hmem
    have h2 := hcmds _ hmem
    simp [sync_command] at h2
  · intro cs hcs
    unfold scan_changes_full at hcs
    split at hcs
    · exact Option.noConfusion hcs
    · split at hcs
      · exact Option.noConfusion hcs
      · split at hcs
        · exact Option.noConfusion hcs
        · injection hcs with hcs
          exact ⟨_, _, hcs.symm⟩

/-- Witness for C9: at a concrete configuration and environment the scan's
only commands are `lsjson` invocations and its result comes from the pure
classifier. -/
theorem scan_never_mutates_witness :
    (["lsjson", "gdrive:", "--recursive", "--files-only"] ∈
        scan_commands ⟨"gdrive:", "/backup"⟩
          ⟨.completes 1 ⟨0, sampleRemote⟩, false, .spawnFailure⟩ →
      (["lsjson", "gdrive:", "--recursive", "--files-only"] :
        List String).head? = some "lsjson") ∧
    (sync_command ⟨"gdrive:", "/backup"⟩ "b.log").head? = some "sync" :=
  ⟨(scan_never_mutates ⟨"gdrive:", "/backup"⟩
      ⟨.completes 1 ⟨0, sampleRemote⟩, false, .spawnFailure⟩).1 _,
    (scan_never_mutates ⟨"gdrive:", "/backup"⟩
      ⟨.completes 1 ⟨0, sampleRemote⟩, false, .spawnFailure⟩).2.1 "b.log"⟩

theorem scanRemote_nil_local (R : Listing) :
    scanRemote [] R =
      (R.map (fun pe => ⟨pe.1, pe.2.size, pe.2.modified⟩), [],
        (R.map (fun pe => pe.2.size)).sum) := by
  induction R with
  | nil => simp [scanRemote]
  | cons pe rest ih =>
    obtain ⟨path, item⟩ := pe
    simp [scanRemote, assocLookup, ih]

/-- C10: when the destination does not exist, or the local listing
subprocess yields no result or a nonzero exit code, the scan still succeeds,
with an empty local listing: every file of the remote dict becomes a `new`
entry, nothing is changed or deleted, and `total_deleted_size` is zero. -/
theorem scan_missing_local_all_new (cfg : Config) (env : ScanEnv)
    (dur : Nat) (r : ProcResult)
    (hdest : cfg.destination ≠ "")
    (hrem : env.remoteList = .completes dur r)
    (hdur : dur ≤ DEFAULT_TIMEOUT)
    (hrc : r.returncode = 0)
    (hlocal : env.destExists = false ∨
      run_rclone_command env.localList false = none ∨
      ∃ lr, run_rclone_command env.localList false = some lr ∧
        lr.returncode ≠ 0) :
    scan_changes_full cfg env = some
      ⟨(buildDict r.stdout).map (fun pe => ⟨pe.1, pe.2.size, pe.2.modified⟩),
        [], [], ((buildDict r.stdout).map (fun pe => pe.2.size)).sum, 0⟩ := by
  have hl : local_files_of env = [] := by
    unfold local_files_of
    rcases hlocal with h | h | ⟨lr, h1, h2⟩
    · simp [h]
    · by_cases hde : env.destExists <;> simp [hde, h]
    · by_cases hde : env.destExists <;> simp [hde, h1, h2]
  have hnd : ¬ dur > DEFAULT_TIMEOUT := not_lt.mpr hdur
  unfold scan_changes_full
  rw [if_neg hdest, hrem]
  simp only [run_rclone_command, if_neg hnd, Bool.false_eq_true, if_false]
  rw [hl]
  simp only [hrc, ne_eq, not_true_eq_false, if_false, ite_not]
  have : buildDict [] = [] := rfl
  rw [this]
  have hsc : scan_changes (buildDict r.stdout) [] =
      ⟨(buildDict r.stdout).map (fun pe => ⟨pe.1, pe.2.size, pe.2.modified⟩),
        [], [], ((buildDict r.stdout).map (fun pe => pe.2.size)).sum, 0⟩ := by
    unfold scan_changes
    rw [scanRemote_nil_local]
    rfl
  simp [hsc]

/-- Witness for C10: a concrete scan with a missing destination directory
turns the single remote file into a `new` entry with empty `deleted`. -/
theorem scan_missing_local_all_new_witness :
    scan_changes_full ⟨"gdrive:", "/backup"⟩
      ⟨.completes 10 ⟨0, [("a.txt", ⟨10, "T1"⟩)]⟩, false, .spawnFailure⟩ =
      some ⟨(buildDict [("a.txt", ⟨10, "T1"⟩)]).map
          (fun pe => ⟨pe.1, pe.2.size, pe.2.modified⟩),
        [], [],
        ((buildDict [("a.txt", ⟨10, "T1"⟩)]).map (fun pe => pe.2.size)).sum,
        0⟩ :=
  scan_missing_local_all_new ⟨"gdrive:", "/backup"⟩
    ⟨.completes 10 ⟨0, [("a.txt", ⟨10, "T1"⟩)]⟩, false, .spawnFailure⟩
    10 ⟨0, [("a.txt", ⟨10, "T1"⟩)]⟩
    (by decide) rfl (by decide) rfl (Or.inl rfl)

/-- ASCII lowering of one character, as Python's `str.lower()` acts on the
ASCII platform/machine names this program feeds it. -/
def lowerChar (c : Char) : Char :=
  if 'A' ≤ c ∧ c ≤ 'Z' then Char.ofNat (c.toNat + 32) else c

/-- `s.lower()` on the ASCII strings returned by `platform.system()` and
`platform.machine()`. -/
def pyLower (s : String) : String := ⟨s.data.map lowerChar⟩

/-- Architecture detection of `get_rclone_download_url` (lines 139-149):
recognized machine names map to one of four architecture tags, anything else
defaults to `amd64`. -/
def rclone_arch (machine : String) : String :=
  if pyLower machine = "x86_64" ∨ pyLower machine = "amd64" then "amd64"
  else if pyLower machine = "i386" ∨ pyLower machine = "i686" ∨
      pyLower machine = "x86" then "386"
  else if pyLower machine = "arm64" ∨ pyLower machine = "aarch64" then "arm64"
  else if (pyLower machine).startsWith "arm" then "arm"
  else "amd64"

/-- `get_rclone_download_url` (lines 129-160): pick the release asset URL
from the lowered OS and machine names; an OS outside
{windows, darwin, linux} yields the fixed linux/amd64 asset.  The constant
`base_url` prefix is folded into the literals. -/
def get_rclone_download_url (system machine : String) : String × Bool :=
  if pyLower system = "windows" then
    ("https://downloads.rclone.org/v1.68.2/rclone-v1.68.2-windows-" ++
      rclone_arch machine ++ ".zip", true)
  else if pyLower system = "darwin" then
    ("https://downloads.rclone.org/v1.68.2/rclone-v1.68.2-osx-" ++
      rclone_arch machine ++ ".zip", true)
  else if pyLower system = "linux" then
    ("https://downloads.rclone.org/v1.68.2/rclone-v1.68.2-linux-" ++
      rclone_arch machine ++ ".zip", true)
  else
    ("https://downloads.rclone.org/v1.68.2/rclone-v1.68.2-linux-amd64.zip",
      true)

/-- C7: the derived architecture always lands in the recognized set
{amd64, 386, arm64, arm}, so an unrecognized pair means an unrecognized OS,
for which the URL selection deterministically returns the linux/amd64 asset
name rather than failing; each recognized OS maps to its platform-matched
asset name built from the derived architecture. -/
theorem download_url_fallback (system machine : String)
    (h : pyLower system ≠ "windows" ∧ pyLower system ≠ "darwin" ∧
      pyLower system ≠ "linux") :
    get_rclone_download_url system machine =
      ("https://downloads.rclone.org/v1.68.2/rclone-v1.68.2-linux-amd64.zip",
        true) ∧
    (rclone_arch machine = "amd64" ∨ rclone_arch machine = "386" ∨
      rclone_arch machine = "arm64" ∨ rclone_arch machine = "arm") ∧
    (∀ sys2 mach2, pyLower sys2 = "windows" →
      get_rclone_download_url sys2 mach2 =
        ("https://downloads.rclone.org/v1.68.2/rclone-v1.68.2-windows-" ++
          rclone_arch mach2 ++ ".zip", true)) ∧
    (∀ sys2 mach2, pyLower sys2 = "darwin" →
      get_rclone_download_url sys2 mach2 =
        ("https://downloads.rclone.org/v1.68.2/rclone-v1.68.2-osx-" ++
          rclone_arch mach2 ++ ".zip", true)) ∧
    (∀ sys2 mach2, pyLower sys2 = "linux" →
      get_rclone_download_url sys2 mach2 =
        ("https://downloads.rclone.org/v1.68.2/rclone-v1.68.2-linux-" ++
          rclone_arch mach2 ++ ".zip", true)) := by
  refine ⟨?_, ?_, ?_, ?_, ?_⟩
  · unfold get_rclone_download_url
    rw [if_neg h.1, if_neg h.2.1, if_neg h.2.2]
  · unfold rclone_arch
    split_ifs <;> simp
  · intro sys2 mach2 h2
    unfold get_rclone_download_url
    rw [if_pos h2]
  · intro sys2 mach2 h2
    unfold get_rclone_download_url
    rw [if_neg (by rw [h2]; decide), if_pos h2]
  · intro sys2 mach2 h2
    unfold get_rclone_download_url
    rw [if_neg (by rw [h2]; decide), if_neg (by rw [h2]; decide), if_pos h2]

/-- Witness for C7: an unrecognized freebsd/riscv64 pair falls back to the
linux/amd64 asset; recognized Windows on an arm machine gets the matching
Windows asset. -/
theorem download_url_fallback_witness :
    get_rclone_download_url "freebsd" "riscv64" =
      ("https://downloads.rclone.org/v1.68.2/rclone-v1.68.2-linux-amd64.zip",
        true) ∧
    get_rclone_download_url "Windows" "armv7l" =
      ("https://downloads.rclone.org/v1.68.2/rclone-v1.68.2-windows-" ++
        rclone_arch "armv7l" ++ ".zip", true) :=
  ⟨(download_url_fallback "freebsd" "riscv64" (by decide)).1,
    (download_url_fallback "freebsd" "riscv64" (by decide)).2.2.1
      "Windows" "armv7l" (by decide)⟩

/-- A JSON scalar, as the duck-typed Python value a listing record may hold
in one of its fields. -/
inductive JValue where
  | jstr (s : String)
  | jint (n : Int)
  | jnull
deriving DecidableEq, Repr

/-- A raw `lsjson` record: a JSON object as a key-value list, before any
field is accessed. -/
abbrev RawItem := List (String × JValue)

/-- Errors of the raw scan pipeline.  `keyError` and `typeError` are the
Python exceptions `item['k']` and integer arithmetic can raise. -/
inductive ScanError where
  | keyError (key : String)
  | typeError
  /-- Modelled from the spec: `MalformedListingError` of the spec's error
  taxonomy (§4.1, §7), naming the offending path.  `src/main.py` defines no
  such error and never produces it; the constructor exists only so the code's
  observed behavior can be compared against the spec-mandated one. -/
  | malformedListingError (path : String)
deriving DecidableEq, Repr

/-- `item['k']` on a raw record: the value at the key (a JSON object parsed
as a Python dict keeps the last duplicate, hence the reversal), or a
`KeyError` naming the key. -/
def itemGet (item : RawItem) (k : String) : Except ScanError JValue :=
  match assocLookup item.reverse k with
  | some v => .ok v
  | none => .error (.keyError k)

/-- Using a field value as an integer (`total += item['Size']`): a
`TypeError` unless the value is an integer. -/
def pyToInt (v : JValue) : Except ScanError Int :=
  match v with
  | .jint n => .ok n
  | _ => .error .typeError

/-- `a - b` on two field values (the `size_diff` computation): a `TypeError`
unless both are integers. -/
def pySub (a b : JValue) : Except ScanError Int := do
  let x ← pyToInt a
  let y ← pyToInt b
  pure (x - y)

/-- The dict comprehension `{item['Path']: item for item in files}` on raw
records: each record's `Path` field is read (a `KeyError` if absent) and
used as the dict key. -/
def buildRawDict (items : List RawItem) :
    Except ScanError (List (JValue × RawItem)) :=
  items.foldlM (fun d item => do
    let p ← itemGet item "Path"
    pure (dictInsert d p item)) []

/-- Raw counterpart of `NewEntry`: the values are stored unchecked. -/
structure RawNewEntry where
  path : JValue
  size : JValue
  modified : JValue
deriving DecidableEq, Repr

/-- Raw counterpart of `ChangedEntry`; only `size_diff` forces integers. -/
structure RawChangedEntry where
  path : JValue
  old_size : JValue
  new_size : JValue
  size_diff : Int
  modified : JValue
deriving DecidableEq, Repr

/-- Raw counterpart of `DeletedEntry`. -/
structure RawDeletedEntry where
  path : JValue
  size : JValue
  modified : JValue
deriving DecidableEq, Repr

/-- Raw counterpart of `ChangeSet`. -/
structure RawChangeSet where
  new_files : List RawNewEntry
  changed_files : List RawChangedEntry
  deleted_files : List RawDeletedEntry
  total_new_size : Int
  total_deleted_size : Int
deriving DecidableEq, Repr

/-- The first loop of `scan_changes` on raw records (lines 593-613), with
Python's evaluation order: field accesses raise `KeyError` where a field is
missing, the `or` of the change test short-circuits, and the `+=` on
`total_new_size` and the `size_diff` subtraction raise `TypeError` on
non-integers. -/
def scanRawRemote (local_dict : List (JValue × RawItem)) :
    List (JValue × RawItem) →
      Except ScanError (List RawNewEntry × List RawChangedEntry × Int)
  | [] => .ok ([], [], 0)
  | (path, drive_item) :: rest =>
    match assocLookup local_dict path with
    | none => do
      let vsize ← itemGet drive_item "Size"
      let vmod ← itemGet drive_item "ModTime"
      let n ← pyToInt vsize
      let r ← scanRawRemote local_dict rest
      .ok (⟨path, vsize, vmod⟩ :: r.1, r.2.1, n + r.2.2)
    | some local_item => do
      let ds ← itemGet drive_item "Size"
      let ls ← itemGet local_item "Size"
      let changed ←
        if ds ≠ ls then pure true
        else do
          let dm ← itemGet drive_item "ModTime"
          let lm ← itemGet local_item "ModTime"
          pure (decide (dm ≠ lm))
      if changed then do
        let oldSize ← itemGet local_item "Size"
        let newSize ← itemGet drive_item "Size"
        let diff ← pySub newSize oldSize
        let dm ← itemGet drive_item "ModTime"
        let r ← scanRawRemote local_dict rest
        .ok (r.1, ⟨path, oldSize, newSize, diff, dm⟩ :: r.2.1, r.2.2)
      else
        scanRawRemote local_dict rest

/-- The second loop of `scan_changes` on raw records (lines 616-624). -/
def scanRawLocal (drive_dict : List (JValue × RawItem)) :
    List (JValue × RawItem) →
      Except ScanError (List RawDeletedEntry × Int)
  | [] => .ok ([], 0)
  | (path, local_item) :: rest =>
    match assocLookup drive_dict path with
    | none => do
      let vsize ← itemGet local_item "Size"
      let vmod ← itemGet local_item "ModTime"
      let n ← pyToInt vsize
      let r ← scanRawLocal drive_dict rest
      .ok (⟨path, vsize, vmod⟩ :: r.1, n + r.2)
    | some _ => scanRawLocal drive_dict rest

/-- Steps 582-635 of `scan_changes` on raw parsed records, errors and all:
build the two dicts, then run the two classification loops. -/
def scan_changes_raw (drive_files local_files : List RawItem) :
    Except ScanError RawChangeSet := do
  let drive_dict ← buildRawDict drive_files
  let local_dict ← buildRawDict local_files
  let r ← scanRawRemote local_dict drive_dict
  let d ← scanRawLocal drive_dict local_dict
  .ok ⟨r.1, r.2.1, d.1, r.2.2, d.2⟩

/-- A record is well-formed when it has a string `Path`, an integer `Size`
and a string `ModTime`. -/
def wfItem (item : RawItem) : Prop :=
  (∃ s, itemGet item "Path" = .ok (.jstr s)) ∧
  (∃ n, itemGet item "Size" = .ok (.jint n)) ∧
  (∃ m, itemGet item "ModTime" = .ok (.jstr m))

theorem except_bind_ok {ε α β : Type} (a : α) (f : α → Except ε β) :
    (Except.ok a >>= f) = f a := rfl

theorem except_bind_error {ε α β : Type} (e : ε) (f : α → Except ε β) :
    ((Except.error e : Except ε α) >>= f) = .error e := rfl

theorem mem_dictInsert {κ α : Type} [DecidableEq κ]
    (d : List (κ × α)) (k : κ) (v : α) :
    ∀ kv ∈ dictInsert d k v, kv ∈ d ∨ kv.2 = v := by
  induction d with
  | nil =>
    intro kv hkv
    simp [dictInsert] at hkv
    exact Or.inr (by rw [hkv])
  | cons qw rest ih =>
    obtain ⟨q, w⟩ := qw
    intro kv hkv
    by_cases hk : k = q
    · simp only [dictInsert, if_pos hk] at hkv
      rcases List.mem_cons.mp hkv with rfl | hkv2
      · exact Or.inr rfl
      · exact Or.inl (List.mem_cons_of_mem _ hkv2)
    · simp only [dictInsert, if_neg hk] at hkv
      rcases List.mem_cons.mp hkv with rfl | hkv2
      · exact Or.inl (List.mem_cons_self _ _)
      · rcases ih kv hkv2 with h | h
        · exact Or.inl (List.mem_cons_of_mem _ h)
        · exact Or.inr h

theorem buildRawDict_go (items : List RawItem) :
    ∀ acc : List (JValue × RawItem),
      (∀ i ∈ items, ∃ v, itemGet i "Path" = .ok v) →
      ∃ d, (items.foldlM (fun d item => do
          let p ← itemGet item "Path"
          pure (dictInsert d p item)) acc) = .ok d ∧
        ∀ kv ∈ d, kv.2 ∈ items ∨ kv ∈ acc := by
  induction items with
  | nil =>
    intro acc _
    exact ⟨acc, rfl, fun kv hkv => Or.inr hkv⟩
  | cons i rest ih =>
    intro acc h
    obtain ⟨v, hv⟩ := h i (List.mem_cons_self _ _)
    obtain ⟨d, hd, hmem⟩ := ih (dictInsert acc v i)
      (fun j hj => h j (List.mem_cons_of_mem _ hj))
    refine ⟨d, ?_, ?_⟩
    · rw [List.foldlM_cons, hv, except_bind_ok]
      exact hd
    · intro kv hkv
      rcases hmem kv hkv with h2 | h2
      · exact Or.inl (List.mem_cons_of_mem _ h2)
      · rcases mem_dictInsert acc v i kv h2 with h3 | h3
        · exact Or.inr h3
        · exact Or.inl (h3 ▸ List.mem_cons_self _ _)

theorem buildRawDict_ok (items : List RawItem)
    (h : ∀ i ∈ items, ∃ v, itemGet i "Path" = .ok v) :
    ∃ d, buildRawDict items = .ok d ∧ ∀ kv ∈ d, kv.2 ∈ items := by
  obtain ⟨d, hd, hmem⟩ := buildRawDict_go items [] h
  refine ⟨d, hd, fun kv hkv => ?_⟩
  rcases hmem kv hkv with h2 | h2
  · exact h2
  · exact absurd h2 (List.not_mem_nil kv)

theorem scanRawRemote_ok (local_dict : List (JValue × RawItem))
    (drive_dict : List (JValue × RawItem))
    (hd : ∀ kv ∈ drive_dict, wfItem kv.2)
    (hl : ∀ kv ∈ local_dict, wfItem kv.2) :
    ∃ x, scanRawRemote local_dict drive_dict = .ok x := by
  induction drive_dict with
  | nil => exact ⟨([], [], 0), rfl⟩
  | cons pe rest ih =>
    obtain ⟨path, item⟩ := pe
    obtain ⟨⟨ps, hps⟩, ⟨sz, hsz⟩, ⟨md, hmd⟩⟩ :=
      hd (path, item) (List.mem_cons_self _ _)
    obtain ⟨r, hr⟩ := ih (fun kv hkv => hd kv (List.mem_cons_of_mem _ hkv))
    cases h : assocLookup local_dict path with
    | none =>
      refine ⟨(⟨path, .jint sz, .jstr md⟩ :: r.1, r.2.1, sz + r.2.2), ?_⟩
      simp only [scanRawRemote, h, hsz, hmd, hr, except_bind_ok, pyToInt]
    | some local_item =>
      obtain ⟨_, ⟨lsz, hlsz⟩, ⟨lmd, hlmd⟩⟩ :=
        hl (path, local_item) (assocLookup_mem h)
      by_cases h1 : (JValue.jint sz : JValue) ≠ .jint lsz
      · refine ⟨(r.1, ⟨path, .jint lsz, .jint sz, sz - lsz,
          .jstr md⟩ :: r.2.1, r.2.2), ?_⟩
        simp only [scanRawRemote, h, hsz, hlsz, hmd, hr, except_bind_ok,
          if_pos h1, pySub, pyToInt]
        simp
      · by_cases h2 : (JValue.jstr md : JValue) ≠ .jstr lmd
        · refine ⟨(r.1, ⟨path, .jint lsz, .jint sz, sz - lsz,
            .jstr md⟩ :: r.2.1, r.2.2), ?_⟩
          simp only [scanRawRemote, h, hsz, hlsz, hmd, hlmd, hr,
            except_bind_ok, if_neg h1, pySub, pyToInt]
          simp [h2]
        · refine ⟨r, ?_⟩
          simp only [scanRawRemote, h, hsz, hlsz, hmd, hlmd, hr,
            except_bind_ok, if_neg h1]
          simp [h2, hr]

theorem scanRawLocal_ok (drive_dict : List (JValue × RawItem))
    (local_dict : List (JValue × RawItem))
    (hl : ∀ kv ∈ local_dict, wfItem kv.2) :
    ∃ x, scanRawLocal drive_dict local_dict = .ok x := by
  induction local_dict with
  | nil => exact ⟨([], 0), rfl⟩
  | cons pe rest ih =>
    obtain ⟨path, item⟩ := pe
    obtain ⟨⟨ps, hps⟩, ⟨sz, hsz⟩, ⟨md, hmd⟩⟩ :=
      hl (path, item) (List.mem_cons_self _ _)
    obtain ⟨r, hr⟩ := ih (fun kv hkv => hl kv (List.mem_cons_of_mem _ hkv))
    cases h : assocLookup drive_dict path with
    | none =>
      refine ⟨(⟨path, .jint sz, .jstr md⟩ :: r.1, sz + r.2), ?_⟩
      simp only [scanRawLocal, h, hsz, hmd, hr, except_bind_ok, pyToInt]
    | some d =>
      refine ⟨r, ?_⟩
      simp only [scanRawLocal, h]
      exact hr

/-- A record with a `Path` but neither `Size` nor `ModTime`. -/
def malformedItem : RawItem := [("Path", .jstr "a.txt")]

/-- Counterexample for C5: on a listing containing a record that lacks the
size field, no `MalformedListingError` naming the offending path is signaled
before classification — the dict-building caller boundary accepts the record,
and the classification loop itself then fails with a `KeyError` naming the
missing field `Size`, which names the field, not the path. -/
theorem scan_raw_no_malformed_rejection :
    buildRawDict [malformedItem] = .ok [(.jstr "a.txt", malformedItem)] ∧
    scan_changes_raw [malformedItem] [] = .error (.keyError "Size") ∧
    (Except.error (.keyError "Size") : Except ScanError RawChangeSet) ≠
      .error (.malformedListingError "a.txt") := by
  refine ⟨rfl, rfl, ?_⟩
  intro h
  injection h with h2
  exact ScanError.noConfusion h2

/-- C5 (amended): the classifier pipeline never fails on two listings of
well-formed records, but malformed input is not rejected by the caller
before classification and no `MalformedListingError` exists: a record
missing its size field makes the classification itself fail with a
`KeyError` naming the missing field rather than the offending path. -/
theorem scan_raw_wellformed_ok (drive_files local_files : List RawItem)
    (hd : ∀ i ∈ drive_files, wfItem i) (hl : ∀ i ∈ local_files, wfItem i) :
    (∃ cs, scan_changes_raw drive_files local_files = .ok cs) ∧
    scan_changes_raw [malformedItem] [] = .error (.keyError "Size") := by
  refine ⟨?_, rfl⟩
  obtain ⟨dd, hdd, hdmem⟩ := buildRawDict_ok drive_files
    (fun i hi => ⟨.jstr (hd i hi).1.choose, (hd i hi).1.choose_spec⟩)
  obtain ⟨ld, hld, hlmem⟩ := buildRawDict_ok local_files
    (fun i hi => ⟨.jstr (hl i hi).1.choose, (hl i hi).1.choose_spec⟩)
  obtain ⟨r, hr⟩ := scanRawRemote_ok ld dd
    (fun kv hkv => hd kv.2 (hdmem kv hkv))
    (fun kv hkv => hl kv.2 (hlmem kv hkv))
  obtain ⟨d, hdel⟩ := scanRawLocal_ok dd ld
    (fun kv hkv => hl kv.2 (hlmem kv hkv))
  refine ⟨⟨r.1, r.2.1, d.1, r.2.2, d.2⟩, ?_⟩
  unfold scan_changes_raw
  rw [hdd, except_bind_ok, hld, except_bind_ok, hr, except_bind_ok,
    hdel, except_bind_ok]

/-- Witness for C5 (amended): two concrete well-formed singleton listings
classify without an error. -/
theorem scan_raw_wellformed_ok_witness :
    (∃ cs, scan_changes_raw
      [[("Path", .jstr "a.txt"), ("Size", .jint 10), ("ModTime", .jstr "T1")]]
      [[("Path", .jstr "b.txt"), ("Size", .jint 5), ("ModTime", .jstr "T2")]] =
        .ok cs) ∧
    scan_changes_raw [malformedItem] [] = .error (.keyError "Size") :=
  scan_raw_wellformed_ok
    [[("Path", .jstr "a.txt"), ("Size", .jint 10), ("ModTime", .jstr "T1")]]
    [[("Path", .jstr "b.txt"), ("Size", .jint 5), ("ModTime", .jstr "T2")]]
    (by
      intro i hi
      simp only [List.mem_singleton] at hi
      subst hi
      exact ⟨⟨"a.txt", rfl⟩, ⟨10, rfl⟩, ⟨"T1", rfl⟩⟩)
    (by
      intro i hi
      simp only [List.mem_singleton] at hi
      subst hi
      exact ⟨⟨"b.txt", rfl⟩, ⟨5, rfl⟩, ⟨"T2", rfl⟩⟩)

end BackupCli
